import Mathlib

/-!
Shallow embedding of the per-pixel transforms of `postdraw` (src/src/main.rs).

The program has two modes, `bw` and `halftone`; the only algorithmic content is
the per-pixel body of each processing loop (main.rs lines 83-89 and 125-146).
Both loops compute in `f32`.  The embedding models a finite `f32` value as an
exact rational (`ℚ`); the one place where a NaN is reachable on valid inputs
(the division `v / threshold` of `bw` when `threshold = 0`) is modelled
explicitly with `Option ℚ`, `none` standing for NaN.  Rust's saturating cast
`as u8` (truncate toward zero, clamp to `[0, 255]`, NaN to `0`) and
`u8::saturating_add` are modelled exactly.  The rotation constants
`Vec2::from_angle(FRAC_PI_4) = (cos (π/4), sin (π/4))` of `halftone` are
machine-dependent `f32` values; they are kept as abstract rational parameters
`c` and `s`, universally quantified in every theorem.  All pixels of the
concrete scenarios below sit at coordinate `(0, 0)`, which every rotation
fixes, so no theorem depends on their exact values.
-/

namespace Postdraw

/-- Rust `u8::saturating_add` on values already in `[0, 255]`. -/
def satAdd (a b : ℕ) : ℕ := min 255 (a + b)

/-- Rust saturating cast `as u8` applied to a finite `f32`, modelled on `ℚ`:
truncate toward zero and clamp to `[0, 255]` (negative values clamp to `0`,
so flooring before the clamp agrees with truncation toward zero). -/
def f32ToU8 (q : ℚ) : ℕ := (min 255 (max 0 ⌊q⌋)).toNat

/-- Rust saturating cast `as u8` on a possibly-NaN `f32` (`none` = NaN):
a NaN casts to `0`. -/
def f32OptToU8 : Option ℚ → ℕ
  | none => 0
  | some q => f32ToU8 q

/-- The `f32` pipeline of the `bw` dark branch, main.rs line 85:
`pixel[0] as f32 / threshold_f32 * compress * threshold_f32`.
When `threshold = 0` every `f32` evaluation of this expression is NaN
(`0.0 / 0.0` is NaN for `v = 0`; for `v > 0`, `v / 0.0 = inf` and the final
multiplication `inf * 0.0` is NaN), modelled as `none`. -/
def bwFloat (threshold : ℕ) (compress : ℚ) (v : ℕ) : Option ℚ :=
  if threshold = 0 then none
  else some ((v : ℚ) / (threshold : ℚ) * compress * (threshold : ℚ))

/-- Per-pixel body of the `bw` loop, main.rs lines 83-89:
if `v <= threshold` then `((v as f32 / t * compress * t) as u8).saturating_add base`
else `255`. -/
def bwPixel (threshold : ℕ) (compress : ℚ) (base : ℕ) (v : ℕ) : ℕ :=
  if v ≤ threshold then satAdd (f32OptToU8 (bwFloat threshold compress v)) base
  else 255

/-- Claim-side restatement of the `bw` per-pixel rule, written from the spec's
words: if `v > threshold` output `255`; otherwise divide `v` by `threshold`,
multiply by `compress`, multiply by `threshold`, truncate toward zero to an
8-bit integer (the `as u8` cast), then add `base` with saturation at `255`. -/
def bwSpec (threshold : ℕ) (compress : ℚ) (base : ℕ) (v : ℕ) : ℕ :=
  if threshold < v then 255
  else min 255 ((min 255 (max 0 ⌊(v : ℚ) / (threshold : ℚ) * compress * (threshold : ℚ)⌋)).toNat + base)

lemma bwPixel_le_255 (threshold : ℕ) (compress : ℚ) (base v : ℕ) :
    bwPixel threshold compress base v ≤ 255 := by
  unfold bwPixel satAdd
  split_ifs <;> simp

lemma bwPixel_eq_bwSpec (threshold : ℕ) (compress : ℚ) (base v : ℕ) :
    bwPixel threshold compress base v = bwSpec threshold compress base v := by
  unfold bwPixel bwSpec
  rcases le_or_lt v threshold with h | h
  · rw [if_pos h, if_neg (not_lt.2 h)]
    rcases eq_or_ne threshold 0 with rfl | h0
    · have hv : v = 0 := Nat.le_zero.mp h
      subst hv
      simp [bwFloat, f32OptToU8, f32ToU8, satAdd]
    · simp [bwFloat, h0, f32OptToU8, f32ToU8, satAdd]
  · rw [if_neg (not_le.2 h), if_pos h]

/-- Claim C1: the `bw` per-pixel rule.  For every input luma `v` and parameters,
if `v > threshold` the output is `255`; otherwise the output is obtained by
dividing `v` by `threshold`, multiplying by `compress`, multiplying by
`threshold`, truncating toward zero to an integer, and adding `base` with
saturation at `255`; the addition never wraps (the output never exceeds `255`). -/
theorem bw_rule (threshold : ℕ) (compress : ℚ) (base v : ℕ) :
    bwPixel threshold compress base v = bwSpec threshold compress base v ∧
    bwPixel threshold compress base v ≤ 255 :=
  ⟨bwPixel_eq_bwSpec threshold compress base v, bwPixel_le_255 threshold compress base v⟩

lemma f32ToU8_mono {q1 q2 : ℚ} (h : q1 ≤ q2) : f32ToU8 q1 ≤ f32ToU8 q2 := by
  unfold f32ToU8
  exact Int.toNat_le_toNat
    (min_le_min (le_refl _) (max_le_max (le_refl _) (Int.floor_le_floor h)))

/-- Claim C6: `bw` monotonicity.  For fixed parameters with a positive compress
factor and `v1 ≤ v2 ≤ threshold`, the output at `v1` is at most the output at
`v2`. -/
theorem bw_mono (threshold : ℕ) (compress : ℚ) (base v1 v2 : ℕ)
    (hc : 0 < compress) (h12 : v1 ≤ v2) (h2 : v2 ≤ threshold) :
    bwPixel threshold compress base v1 ≤ bwPixel threshold compress base v2 := by
  have h1 : v1 ≤ threshold := le_trans h12 h2
  unfold bwPixel
  rw [if_pos h1, if_pos h2]
  unfold satAdd
  refine min_le_min (le_refl _) (Nat.add_le_add_right ?_ base)
  rcases eq_or_ne threshold 0 with rfl | h0
  · simp [bwFloat]
  · have ht : (0 : ℚ) < (threshold : ℚ) := by
      exact_mod_cast Nat.pos_of_ne_zero h0
    simp only [bwFloat, if_neg h0, f32OptToU8]
    apply f32ToU8_mono
    have hv : (v1 : ℚ) ≤ (v2 : ℚ) := by exact_mod_cast h12
    gcongr

/-- Witness for `bw_mono` at `threshold = 150`, `compress = 2/5`, `base = 20`,
`v1 = 100`, `v2 = 120`. -/
theorem bw_mono_witness :
    (0 : ℚ) < 2/5 ∧ 100 ≤ 120 ∧ 120 ≤ 150 ∧
    bwPixel 150 (2/5) 20 100 ≤ bwPixel 150 (2/5) 20 120 :=
  ⟨by norm_num, by norm_num, by norm_num,
    bw_mono 150 (2/5) 20 100 120 (by norm_num) (by norm_num) (by norm_num)⟩

/-- Claim C8: concrete `bw` scenario.  With `threshold = 150`,
`compress = 0.4` (modelled as the exact rational `2/5`; the `f32` run computes
`≈ 40.000004` and also truncates to `40`) and `base = 20`, the input luma
`v = 100` produces output `60`. -/
theorem bw_scenario1 : bwPixel 150 (2/5) 20 100 = 60 := by
  norm_num [bwPixel, bwFloat, f32OptToU8, f32ToU8, satAdd]
  decide

/-- Claim C10: `bw` with `threshold = 0` is still total.  The float pipeline at
`v = 0` is NaN (`0.0 / 0.0`, modelled as `none`), the NaN casts to `0`, so the
output is exactly `base`; every `v > 0` takes the bright branch and outputs
`255`.  Totality holds by construction: `bwPixel` is a total Lean function. -/
theorem bw_zero_threshold (compress : ℚ) (base v : ℕ) (hb : base ≤ 255) :
    bwFloat 0 compress 0 = none ∧
    bwPixel 0 compress base 0 = base ∧
    (0 < v → bwPixel 0 compress base v = 255) := by
  refine ⟨rfl, ?_, ?_⟩
  · unfold bwPixel satAdd
    rw [if_pos (le_refl 0)]
    simp [bwFloat, f32OptToU8, min_eq_right hb]
  · intro hv
    unfold bwPixel
    rw [if_neg (by omega)]

/-- Witness for `bw_zero_threshold` at `compress = 2/5`, `base = 20`, `v = 1`. -/
theorem bw_zero_threshold_witness :
    20 ≤ 255 ∧
    (bwFloat 0 (2/5) 0 = none ∧ bwPixel 0 (2/5) 20 0 = 20 ∧
      (0 < 1 → bwPixel 0 (2/5) 20 1 = 255)) :=
  ⟨by norm_num, bw_zero_threshold (2/5) 20 1 (by norm_num)⟩

/-- Rotation of the vector `(x, y)` by the rotation vector `(c, s)`:
glam's `Vec2::rotate`, main.rs line 132, with `(c, s) = Vec2::from_angle (π/4)`. -/
def rotate (c s x y : ℚ) : ℚ × ℚ := (c * x - s * y, s * x + c * y)

/-- Cell-relative normalized offset of pixel `(x, y)`, main.rs lines 132-135:
rotate the position, floor-divide by `stride` to get the cell index, subtract
`index * stride`, then map the offset into `[-1, 1]` per axis. -/
def cellDelta (c s stride : ℚ) (x y : ℕ) : ℚ × ℚ :=
  let pos := rotate c s (x : ℚ) (y : ℚ)
  let ix : ℤ := ⌊pos.1 / stride⌋
  let iy : ℤ := ⌊pos.2 / stride⌋
  let dpx := pos.1 - (ix : ℚ) * stride
  let dpy := pos.2 - (iy : ℚ) * stride
  (dpx / stride * 2 - 1, dpy / stride * 2 - 1)

/-- Output alpha of a dark, non-masked pixel, main.rs lines 129-139:
effective radius `radius + (1 - v/255)`, squared distance of the cell-relative
offset, coverage `clamp(radius² - dist², 0, 1)`, scaled by `255` and cast
`as u8`. -/
def halftoneAlpha (c s stride radius : ℚ) (x y v : ℕ) : ℕ :=
  let r := radius + (1 - (v : ℚ) / 255)
  let d := cellDelta c s stride x y
  let distSq := d.1 ^ 2 + d.2 ^ 2
  f32ToU8 (min 1 (max 0 (r ^ 2 - distSq)) * 255)

/-- Per-pixel body of the `halftone` loop, main.rs lines 125-146: the coverage
computation runs only when the input alpha is non-zero and the input luma is at
most `threshold`; otherwise the output alpha is `0`.  The output luma is
`base` in every case.  The output pair is `(luma, alpha)`. -/
def halftonePixel (c s : ℚ) (threshold : ℕ) (stride radius : ℚ) (base : ℕ)
    (x y luma alpha : ℕ) : ℕ × ℕ :=
  if alpha ≠ 0 ∧ luma ≤ threshold then
    (base, halftoneAlpha c s stride radius x y luma)
  else
    (base, 0)

/-- Coverage of a dark pixel written from the spec's steps a-g: effective
radius, rotated position, cell index, offset from cell origin, normalization
to `[-1, 1]`, squared distance, `clamp(radius² - dist², 0, 1)`. -/
def specCoverage (c s stride radius : ℚ) (x y v : ℕ) : ℚ :=
  let r := radius + (1 - (v : ℚ) / 255)
  let pos := rotate c s (x : ℚ) (y : ℚ)
  let index : ℤ × ℤ := (⌊pos.1 / stride⌋, ⌊pos.2 / stride⌋)
  let dpos := (pos.1 - (index.1 : ℚ) * stride, pos.2 - (index.2 : ℚ) * stride)
  let delta := (dpos.1 / stride * 2 - 1, dpos.2 / stride * 2 - 1)
  let distSq := delta.1 ^ 2 + delta.2 ^ 2
  min 1 (max 0 (r ^ 2 - distSq))

/-- Quantization named by the spec's step h: `round(alpha * 255)` truncated to
8 bits. -/
def roundU8 (q : ℚ) : ℕ := (min 255 (max 0 (round q))).toNat

/-- Claim C2 exactly as stated: every pixel with input luma `v ≤ threshold`
(no condition on its input alpha) would get the spec's dot-coverage alpha and
luma `base`. -/
def halftoneCoverageProp : Prop :=
  ∀ (c s : ℚ) (threshold : ℕ) (stride radius : ℚ) (base : ℕ) (x y v a : ℕ),
    0 < stride → v ≤ threshold →
    halftonePixel c s threshold stride radius base x y v a =
      (base, f32ToU8 (specCoverage c s stride radius x y v * 255))

/-- Claim C2, counterexample: a pixel with input alpha `0` is masked by the
code (`pixel[1] != 0` in the loop condition) and gets output alpha `0`, while
the spec's steps at `(0, 0)`, `v = 0`, `base_radius = 1` give coverage `1`,
hence alpha `255`.  Position `(0, 0)` is fixed by every rotation, so the exact
rotation constants are irrelevant; `7071/10000 ≈ cos (π/4)` is used. -/
theorem halftone_coverage_counterexample : ¬ halftoneCoverageProp := by
  intro h
  have h0 := h (7071/10000) (7071/10000) 150 6 1 40 0 0 0 0 (by norm_num) (by norm_num)
  have hL : halftonePixel (7071/10000) (7071/10000) 150 6 1 40 0 0 0 0 = (40, 0) := by
    norm_num [halftonePixel]
  have hR : f32ToU8 (specCoverage (7071/10000) (7071/10000) 6 1 0 0 0 * 255) = 255 := by
    norm_num [specCoverage, rotate, f32ToU8]
    decide
  rw [hL, hR] at h0
  exact absurd h0 (by decide)

/-- Claim C2 amended: for every pixel with non-zero input alpha and input luma
`v ≤ threshold`, the output is luma `base` together with the alpha computed by
the spec's steps a-g scaled to 8 bits. -/
theorem halftone_coverage (c s : ℚ) (threshold : ℕ) (stride radius : ℚ)
    (base : ℕ) (x y v a : ℕ) (hs : 0 < stride) (ha : a ≠ 0) (hv : v ≤ threshold) :
    halftonePixel c s threshold stride radius base x y v a =
      (base, f32ToU8 (specCoverage c s stride radius x y v * 255)) := by
  unfold halftonePixel
  rw [if_pos ⟨ha, hv⟩]
  rfl

/-- Witness for `halftone_coverage` at the defaults, pixel `(0, 0)`, `v = 0`,
input alpha `255`. -/
theorem halftone_coverage_witness :
    (0 : ℚ) < 6 ∧ (255 : ℕ) ≠ 0 ∧ 0 ≤ 150 ∧
    halftonePixel (7071/10000) (7071/10000) 150 6 (2/5) 40 0 0 0 255 =
      (40, f32ToU8 (specCoverage (7071/10000) (7071/10000) 6 (2/5) 0 0 0 * 255)) :=
  ⟨by norm_num, by norm_num, by norm_num,
    halftone_coverage (7071/10000) (7071/10000) 150 6 (2/5) 40 0 0 0 255
      (by norm_num) (by norm_num) (by norm_num)⟩

/-- Claim C3: every pixel with input luma `v > threshold` gets output alpha `0`
and output luma `base`, whatever its input alpha and coordinates. -/
theorem halftone_threshold_cutoff (c s : ℚ) (threshold : ℕ) (stride radius : ℚ)
    (base : ℕ) (x y v a : ℕ) (hv : threshold < v) :
    halftonePixel c s threshold stride radius base x y v a = (base, 0) := by
  unfold halftonePixel
  rw [if_neg]
  rintro ⟨-, hle⟩
  omega

/-- Witness for `halftone_threshold_cutoff` at the defaults, `v = 200 > 150`. -/
theorem halftone_threshold_cutoff_witness :
    150 < 200 ∧
    halftonePixel (7071/10000) (7071/10000) 150 6 (2/5) 40 3 5 200 255 = (40, 0) :=
  ⟨by norm_num,
    halftone_threshold_cutoff (7071/10000) (7071/10000) 150 6 (2/5) 40 3 5 200 255
      (by norm_num)⟩

/-- Claim C4 exactly as stated: the final 8-bit alpha of a dark pixel would be
`round(alpha * 255)` of the clamped coverage. -/
def halftoneRoundProp : Prop :=
  ∀ (c s : ℚ) (threshold : ℕ) (stride radius : ℚ) (base : ℕ) (x y v a : ℕ),
    0 < stride → v ≤ threshold →
    (halftonePixel c s threshold stride radius base x y v a).2 =
      roundU8 (specCoverage c s stride radius x y v * 255)

/-- Claim C4, counterexample: the cast `(alpha * 255.0) as u8` truncates toward
zero, it does not round.  At pixel `(0, 0)` with `v = 0`, `base_radius = 1/2`
the coverage is exactly `1/4` (all the `f32` steps are exact here), so
`alpha * 255 = 63.75`: the code outputs `63`, rounding would give `64`.
Position `(0, 0)` is fixed by every rotation, so the exact rotation constants
are irrelevant. -/
theorem halftone_round_counterexample : ¬ halftoneRoundProp := by
  intro h
  have h0 := h (7071/10000) (7071/10000) 150 6 (1/2) 40 0 0 0 255 (by norm_num) (by norm_num)
  have hL : (halftonePixel (7071/10000) (7071/10000) 150 6 (1/2) 40 0 0 0 255).2 = 63 := by
    norm_num [halftonePixel, halftoneAlpha, cellDelta, rotate, f32ToU8]
    decide
  have hR : roundU8 (specCoverage (7071/10000) (7071/10000) 6 (1/2) 0 0 0 * 255) = 64 := by
    norm_num [roundU8, specCoverage, rotate, round_eq]
    decide
  rw [hL, hR] at h0
  exact absurd h0 (by decide)

/-- Claim C4 amended: for every dark pixel with non-zero input alpha, the final
8-bit alpha is `alpha * 255` truncated toward zero (the Rust `as u8` cast), not
rounded. -/
theorem halftone_trunc_quantization (c s : ℚ) (threshold : ℕ) (stride radius : ℚ)
    (base : ℕ) (x y v a : ℕ) (hs : 0 < stride) (ha : a ≠ 0) (hv : v ≤ threshold) :
    (halftonePixel c s threshold stride radius base x y v a).2 =
      f32ToU8 (specCoverage c s stride radius x y v * 255) := by
  unfold halftonePixel
  rw [if_pos ⟨ha, hv⟩]
  rfl

/-- Witness for `halftone_trunc_quantization` at the defaults, pixel `(0, 0)`,
`v = 0`, input alpha `255`. -/
theorem halftone_trunc_quantization_witness :
    (0 : ℚ) < 6 ∧ (255 : ℕ) ≠ 0 ∧ 0 ≤ 150 ∧
    (halftonePixel (7071/10000) (7071/10000) 150 6 (2/5) 40 0 0 0 255).2 =
      f32ToU8 (specCoverage (7071/10000) (7071/10000) 6 (2/5) 0 0 0 * 255) :=
  ⟨by norm_num, by norm_num, by norm_num,
    halftone_trunc_quantization (7071/10000) (7071/10000) 150 6 (2/5) 40 0 0 0 255
      (by norm_num) (by norm_num) (by norm_num)⟩

/-- Claim C5: a pixel whose input alpha is `0` gets output alpha `0` regardless
of its luma (the coverage computation is masked by `pixel[1] != 0`), and the
output luma is `base` for every pixel. -/
theorem halftone_alpha_masking (c s : ℚ) (threshold : ℕ) (stride radius : ℚ)
    (base : ℕ) (x y v a : ℕ) :
    halftonePixel c s threshold stride radius base x y v 0 = (base, 0) ∧
    (halftonePixel c s threshold stride radius base x y v a).1 = base := by
  constructor
  · unfold halftonePixel
    simp
  · unfold halftonePixel
    split_ifs <;> rfl

/-- Claim C7 exactly as stated: for two pixels with the same cell-relative
offset, equal input alphas, lumas `v1 < v2 ≤ threshold`, the pixel with the
smaller luma would always get the larger or equal output alpha, with no
condition on the sign of `base_radius`. -/
def halftoneRadiusProp : Prop :=
  ∀ (c s : ℚ) (threshold : ℕ) (stride radius : ℚ) (base : ℕ)
    (x1 y1 x2 y2 v1 v2 a : ℕ),
    0 < stride → v1 ≤ 255 → v2 ≤ 255 → a ≠ 0 →
    cellDelta c s stride x1 y1 = cellDelta c s stride x2 y2 →
    v1 < v2 → v2 ≤ threshold →
    (halftonePixel c s threshold stride radius base x2 y2 v2 a).2 ≤
      (halftonePixel c s threshold stride radius base x1 y1 v1 a).2

/-- Claim C7, counterexample: with a negative `base_radius` the effective
radii are negative and squaring reverses their order.  At pixel `(0, 0)` with
`base_radius = -5/2`, `threshold = 255`: `v1 = 0` gives radius `-3/2`,
coverage `1/4`, alpha `63`; `v2 = 255` gives radius `-5/2`, coverage `1`,
alpha `255 > 63` (all the `f32` steps are exact here).  Position `(0, 0)` is
fixed by every rotation, so the exact rotation constants are irrelevant. -/
theorem halftone_radius_effect_counterexample : ¬ halftoneRadiusProp := by
  intro h
  have h0 := h (7071/10000) (7071/10000) 255 6 (-5/2) 40 0 0 0 0 0 255 255
    (by norm_num) (by norm_num) (by norm_num) (by norm_num) rfl
    (by norm_num) (by norm_num)
  have hL : (halftonePixel (7071/10000) (7071/10000) 255 6 (-5/2) 40 0 0 255 255).2 = 255 := by
    norm_num [halftonePixel, halftoneAlpha, cellDelta, rotate, f32ToU8]
    decide
  have hR : (halftonePixel (7071/10000) (7071/10000) 255 6 (-5/2) 40 0 0 0 255).2 = 63 := by
    norm_num [halftonePixel, halftoneAlpha, cellDelta, rotate, f32ToU8]
    decide
  rw [hL, hR] at h0
  exact absurd h0 (by decide)

/-- Claim C7 amended: with a non-negative `base_radius` (the intended domain;
the CLI default is `0.4`), for two pixels with the same cell-relative offset,
equal non-zero input alphas and lumas `v1 < v2 ≤ threshold` with `v2` in the
u8 range, the pixel with the smaller luma has the larger or equal output
alpha. -/
theorem halftone_radius_effect (c s : ℚ) (threshold : ℕ) (stride radius : ℚ)
    (base : ℕ) (x1 y1 x2 y2 v1 v2 a : ℕ)
    (hr : 0 ≤ radius) (h255 : v2 ≤ 255) (ha : a ≠ 0)
    (hd : cellDelta c s stride x1 y1 = cellDelta c s stride x2 y2)
    (h12 : v1 < v2) (hv : v2 ≤ threshold) :
    (halftonePixel c s threshold stride radius base x2 y2 v2 a).2 ≤
      (halftonePixel c s threshold stride radius base x1 y1 v1 a).2 := by
  have h1 : v1 ≤ threshold := le_trans (le_of_lt h12) hv
  unfold halftonePixel
  rw [if_pos ⟨ha, hv⟩, if_pos ⟨ha, h1⟩]
  simp only [halftoneAlpha, hd]
  apply f32ToU8_mono
  have hc1 : (v1 : ℚ) ≤ (v2 : ℚ) := by exact_mod_cast le_of_lt h12
  have hc2 : (v2 : ℚ) ≤ 255 := by exact_mod_cast h255
  have hdiv : (v2 : ℚ) / 255 ≤ 1 := by
    rw [div_le_one (by norm_num : (0:ℚ) < 255)]
    exact hc2
  have hr2 : (0 : ℚ) ≤ radius + (1 - (v2 : ℚ) / 255) := by linarith
  have hle : radius + (1 - (v2 : ℚ) / 255) ≤ radius + (1 - (v1 : ℚ) / 255) := by
    have : (v1 : ℚ) / 255 ≤ (v2 : ℚ) / 255 := by gcongr
    linarith
  have hsq := pow_le_pow_left₀ hr2 hle 2
  exact mul_le_mul_of_nonneg_right
    (min_le_min (le_refl _) (max_le_max (le_refl _) (sub_le_sub_right hsq _)))
    (by norm_num)

/-- Witness for `halftone_radius_effect`: both pixels at `(0, 0)`,
`base_radius = 2/5`, `v1 = 0 < v2 = 100 ≤ 150`. -/
theorem halftone_radius_effect_witness :
    (0 : ℚ) ≤ 2/5 ∧ 100 ≤ 255 ∧ (255 : ℕ) ≠ 0 ∧ 0 < 100 ∧ 100 ≤ 150 ∧
    (halftonePixel (7071/10000) (7071/10000) 150 6 (2/5) 40 0 0 100 255).2 ≤
      (halftonePixel (7071/10000) (7071/10000) 150 6 (2/5) 40 0 0 0 255).2 :=
  ⟨by norm_num, by norm_num, by norm_num, by norm_num, by norm_num,
    halftone_radius_effect (7071/10000) (7071/10000) 150 6 (2/5) 40 0 0 0 0 0 100 255
      (by norm_num) (by norm_num) (by norm_num) rfl (by norm_num) (by norm_num)⟩

/-- Claim C9: concrete `halftone` scenario at pixel `(0, 0)` with `v = 0`,
`threshold = 150`, `stride = 6`, `base_radius = 0.4` (modelled as the exact
rational `2/5`; the conclusion is robust to the `f32` rounding of `0.4`, since
the effective radius squared is `≈ 1.96 < 2`), `base = 40`: the rotated
position is `(0, 0)` for every rotation vector `(c, s)`, the cell-relative
delta is `(-1, -1)`, the squared distance is `2`, the coverage clamps to `0`,
so the output is luma `40`, alpha `0` — whatever the input alpha `a`. -/
theorem halftone_origin_scenario (c s : ℚ) (a : ℕ) :
    halftonePixel c s 150 6 (2/5) 40 0 0 0 a = (40, 0) := by
  unfold halftonePixel
  split_ifs with h
  · norm_num [halftoneAlpha, cellDelta, rotate, f32ToU8]
  · rfl

end Postdraw
